import Mathlib

/-!
Shallow embedding of the core of the tokera-com/ate repository, covering:

* the hello/version negotiation of the wire transport
  (`lib/src/comms/hello.rs`);
* the symmetric `EncryptKey` and its `xor` combinator
  (`lib/src/crypto/encrypt_key.rs`);
* the Falcon signing keys and the symmetric-key envelope around a private
  signing key (`crypto/src/crypto/sign_key.rs`,
  `crypto/src/crypto/encrypted_private_key.rs`);
* the in-memory chain indexes (`lib/src/index.rs`);
* the mesh root server: subscription catch-up streaming, advisory locks and
  disconnect cleanup (`src/mesh/root.rs`).

Machine bytes (`u8`) are modelled as `Nat`; byte buffers as `List Nat`;
hashes, primary keys and node identifiers as opaque `Nat` values.  External
cryptographic primitives (AES-CTR keystream generation, the content hash,
Falcon keypair sampling) are modelled as explicit function or data
parameters, so every wrapper is a pure function of its inputs.
-/

set_option autoImplicit false

namespace Ate

/-- A 128-bit record identifier (`PrimaryKey` in `lib/src/header.rs`),
modelled as an opaque natural number. -/
abbrev PrimaryKey := Nat

/-- A 256-bit content hash (`AteHash`), modelled as an opaque natural. -/
abbrev AteHash := Nat

/-- A chain key (logical chain name), modelled as an opaque natural. -/
abbrev ChainKey := Nat

/-- Modelled from the spec: `KeySize` is "one of {128, 192, 256}"; the enum
declaration itself is not among the provided sources (only its uses are).
The comparison order used by the hello exchange is by bit strength. -/
inductive KeySize where
  | Bit128
  | Bit192
  | Bit256
  deriving DecidableEq, Repr

/-- Bit strength of a key-size tier; gives the order `Bit128 < Bit192 <
Bit256` that the derived Rust `PartialOrd` provides. -/
def KeySize.nbits : KeySize → Nat
  | .Bit128 => 128
  | .Bit192 => 192
  | .Bit256 => 256

/-- Wire serialization format chosen during hello (MessagePack or JSON). -/
inductive SerializationFormat where
  | Json
  | MessagePack
  deriving DecidableEq, Repr

/-- The communication errors relevant to the hello exchange
(`CommsErrorKind` in `lib/src/error/comms_error.rs`). -/
inductive CommsError where
  | ServerEncryptionWeak
  | Disconnected
  | InternalError
  deriving DecidableEq, Repr

/-! ## Hello exchange (`lib/src/comms/hello.rs`) -/

/-- Version of the stream protocol (`StreamProtocolVersion`). -/
inductive StreamProtocolVersion where
  | V1
  | V2
  deriving DecidableEq, Repr

/-- The `#[repr(u16)]` discriminant of a protocol version. -/
def StreamProtocolVersion.asU16 : StreamProtocolVersion → Nat
  | .V1 => 1
  | .V2 => 2

/-- `StreamProtocolVersion::min`: compares the `u16` discriminants and
returns whichever operand carries the smaller one. -/
def StreamProtocolVersion.min (self : StreamProtocolVersion)
    (other : StreamProtocolVersion) : StreamProtocolVersion :=
  let first := self.asU16
  let second := other.asU16
  let m := Nat.min first second
  if first = m then self else other

/-- `HelloMetadata`: the result of a successful hello exchange. -/
structure HelloMetadata where
  client_id : Nat
  server_id : Nat
  path : String
  encryption : Option KeySize
  wire_format : SerializationFormat
  deriving DecidableEq, Repr

/-- `SenderHello`: the JSON blob the client sends. -/
structure SenderHello where
  id : Nat
  path : String
  domain : String
  key_size : Option KeySize
  version : StreamProtocolVersion
  deriving DecidableEq, Repr

/-- `ReceiverHello`: the JSON blob the server replies with. -/
structure ReceiverHello where
  id : Nat
  encryption : Option KeySize
  wire_format : SerializationFormat
  version : StreamProtocolVersion
  deriving DecidableEq, Repr

/-- `mesh_hello_exchange_sender`, embedded as a pure function of the
server's reply: builds the client hello (version `V2`), validates the
offered encryption strength against the requested `key_size` (aborting
with `ServerEncryptionWeak` when the server offers no encryption or a
strictly smaller size), then switches to
`hello_server.version.min(hello_client.version)` and returns the
metadata together with the negotiated version. -/
def mesh_hello_exchange_sender (client_id : Nat) (hello_path : String)
    (domain : String) (key_size : Option KeySize)
    (hello_server : ReceiverHello) :
    Except CommsError (HelloMetadata × StreamProtocolVersion) :=
  let hello_client : SenderHello :=
    { id := client_id, path := hello_path, domain := domain
      key_size := key_size, version := .V2 }
  match key_size with
  | some needed_size =>
    match hello_server.encryption with
    | none => .error .ServerEncryptionWeak
    | some a =>
      if a.nbits < needed_size.nbits then
        .error .ServerEncryptionWeak
      else
        let version := hello_server.version.min hello_client.version
        .ok ({ client_id := client_id, server_id := hello_server.id
               path := hello_path, encryption := hello_server.encryption
               wire_format := hello_server.wire_format }, version)
  | none =>
    let version := hello_server.version.min hello_client.version
    .ok ({ client_id := client_id, server_id := hello_server.id
           path := hello_path, encryption := hello_server.encryption
           wire_format := hello_server.wire_format }, version)

/-- `mesh_hello_upgrade_key`: the server picks the stronger of the two
requested key sizes (encryption wins over no encryption). -/
def mesh_hello_upgrade_key (key1 : Option KeySize) (key2 : Option KeySize) :
    Option KeySize :=
  match key1, key2 with
  | none, none => none
  | none, some k2 => some k2
  | some k1, none => some k1
  | some k1, some k2 =>
    if k1.nbits < k2.nbits then some k2
    else if k2.nbits < k1.nbits then some k1
    else some k1

/-- The server hello that `mesh_hello_exchange_receiver` builds and sends
back for a given client hello (version `V2`, encryption upgraded). -/
def receiverHelloOf (server_id : Nat) (key_size : Option KeySize)
    (wire_format : SerializationFormat) (hello_client : SenderHello) :
    ReceiverHello :=
  { id := server_id
    encryption := mesh_hello_upgrade_key key_size hello_client.key_size
    wire_format := wire_format, version := .V2 }

/-- `mesh_hello_exchange_receiver`, embedded as a pure function of the
client's hello: upgrades the key size, answers with `receiverHelloOf`,
and switches to `hello_server.version.min(hello_client.version)`. -/
def mesh_hello_exchange_receiver (server_id : Nat) (key_size : Option KeySize)
    (wire_format : SerializationFormat) (hello_client : SenderHello) :
    HelloMetadata × StreamProtocolVersion :=
  let hello_server := receiverHelloOf server_id key_size wire_format hello_client
  let version := hello_server.version.min hello_client.version
  ({ client_id := hello_client.id, server_id := server_id
     path := hello_client.path, encryption := hello_server.encryption
     wire_format := wire_format }, version)

/-! ## Falcon signing keys (`crypto/src/crypto/sign_key.rs`) -/

/-- `PublicSignKey`: a Falcon public key (512- or 1024-variant) holding the
raw public-key bytes. -/
inductive PublicSignKey where
  | Falcon512 (pk : List Nat)
  | Falcon1024 (pk : List Nat)
  deriving DecidableEq, Repr

/-- `PrivateSignKey`: a Falcon private key together with its public half. -/
inductive PrivateSignKey where
  | Falcon512 (pk : PublicSignKey) (sk : List Nat)
  | Falcon1024 (pk : PublicSignKey) (sk : List Nat)
  deriving DecidableEq, Repr

/-- The raw bytes of a freshly sampled Falcon keypair; stands for the output
of `falcon512::keypair()` / `falcon1024::keypair()`, which is randomness
external to the wrapper code. -/
structure FalconKeypairBytes where
  pk : List Nat
  sk : List Nat
  deriving DecidableEq, Repr

/-- `PrivateSignKey::generate`: `Bit128 | Bit192` both take the Falcon-512
branch; `Bit256` takes the Falcon-1024 branch.  The sampled keypairs are
passed in explicitly (`kp512` used by the first branch, `kp1024` by the
second). -/
def PrivateSignKey.generate (size : KeySize) (kp512 : FalconKeypairBytes)
    (kp1024 : FalconKeypairBytes) : PrivateSignKey :=
  match size with
  | .Bit128 | .Bit192 =>
    .Falcon512 (.Falcon512 kp512.pk) kp512.sk
  | .Bit256 =>
    .Falcon1024 (.Falcon1024 kp1024.pk) kp1024.sk

/-- `PrivateSignKey::as_public_key`. -/
def PrivateSignKey.as_public_key : PrivateSignKey → PublicSignKey
  | .Falcon512 pk _ => pk
  | .Falcon1024 pk _ => pk

/-- `PrivateSignKey::sk`: the raw secret-key bytes. -/
def PrivateSignKey.sk : PrivateSignKey → List Nat
  | .Falcon512 _ sk => sk
  | .Falcon1024 _ sk => sk

/-- `PrivateSignKey::size`: `Falcon512` reports `Bit192`, `Falcon1024`
reports `Bit256`. -/
def PrivateSignKey.size : PrivateSignKey → KeySize
  | .Falcon512 _ _ => .Bit192
  | .Falcon1024 _ _ => .Bit256

/-- True when the variant tag of the stored public key agrees with the
variant tag of the private key, as every key built by `generate` does. -/
def PrivateSignKey.wfb : PrivateSignKey → Bool
  | .Falcon512 (.Falcon512 _) _ => true
  | .Falcon1024 (.Falcon1024 _) _ => true
  | _ => false

/-! ## Symmetric keys (`lib/src/crypto/encrypt_key.rs`) -/

/-- `EncryptKey`: an AES-CTR key of one of the three sizes.  The Rust type
carries fixed arrays `[u8; 16] / [u8; 24] / [u8; 32]`; here the payload is
a byte list and `EncryptKey.wfb` states the length invariant. -/
inductive EncryptKey where
  | Aes128 (b : List Nat)
  | Aes192 (b : List Nat)
  | Aes256 (b : List Nat)
  deriving DecidableEq, Repr

/-- `EncryptKey::value` / `EncryptKey::as_bytes`: the raw key bytes. -/
def EncryptKey.value : EncryptKey → List Nat
  | .Aes128 b => b
  | .Aes192 b => b
  | .Aes256 b => b

/-- `EncryptKey::size`. -/
def EncryptKey.size : EncryptKey → KeySize
  | .Aes128 _ => .Bit128
  | .Aes192 _ => .Bit192
  | .Aes256 _ => .Bit256

/-- Length invariant of the fixed-size Rust arrays backing `EncryptKey`. -/
def EncryptKey.wfb : EncryptKey → Bool
  | .Aes128 b => b.length = 16
  | .Aes192 b => b.length = 24
  | .Aes256 b => b.length = 32

/-- `EncryptKey::from_bytes`: classifies a byte buffer by its length;
any length other than 16, 24 or 32 is an `std::io::Error` (`none`). -/
def EncryptKey.from_bytes (bytes : List Nat) : Option EncryptKey :=
  if bytes.length = 16 then some (.Aes128 bytes)
  else if bytes.length = 24 then some (.Aes192 bytes)
  else if bytes.length = 32 then some (.Aes256 bytes)
  else none

/-- The byte-level effect of `EncryptKey::xor`: `ek1_bytes` is mutated in
place while zipped with `ek2_bytes`, so the first `min` of the two lengths
is XOR-combined and the remaining tail of `ek1` is kept unchanged.  The
result always has `ek1`'s length. -/
def xorBytes (a : List Nat) (b : List Nat) : List Nat :=
  List.zipWith Nat.xor a b ++ a.drop b.length

/-- `EncryptKey::xor`: XOR the byte buffers (first operand's length wins)
and rebuild a key via `from_bytes`.  The Rust code unwraps the result with
`expect`; the fallback branch is unreachable for well-formed keys. -/
def EncryptKey.xor (ek1 : EncryptKey) (ek2 : EncryptKey) : EncryptKey :=
  match EncryptKey.from_bytes (xorBytes ek1.value ek2.value) with
  | some k => k
  | none => ek1

/-! ## AES-CTR wrapper and the private-key envelope
(`lib/src/crypto/encrypt_key.rs`, `crypto/src/crypto/encrypted_private_key.rs`)

AES-CTR applies a keystream that depends only on the key, the (normalised)
IV and the byte position; the cipher core is the external `aes`/`ctr`
crates, so the keystream is a parameter here.  A hash function stands for
`AteHash::from_bytes` (SHA3), likewise external. -/

/-- A CTR keystream: key, 16-byte IV and byte position to keystream byte. -/
abbrev Keystream := EncryptKey → List Nat → Nat → Nat

/-- A content-hash function standing for `AteHash::from_bytes`. -/
abbrev HashFn := List Nat → Nat

/-- IV normalisation done by `encrypt_with_iv` / `decrypt`: keep a 16-byte
IV as is, otherwise truncate to 16 bytes and zero-pad up to 16. -/
def normIv (iv : List Nat) : List Nat :=
  iv.take 16 ++ List.replicate (16 - (iv.take 16).length) 0

/-- `apply_keystream`: XOR each data byte with the keystream byte at its
position (counting from `i`). -/
def ctrXor (pad : Nat → Nat) : Nat → List Nat → List Nat
  | _, [] => []
  | i, b :: rest => (b ^^^ pad i) :: ctrXor pad (i + 1) rest

/-- `EncryptKey::encrypt_with_iv`: normalise the IV and apply the CTR
keystream of this key. -/
def EncryptKey.encrypt_with_iv (ks : Keystream) (key : EncryptKey)
    (iv : List Nat) (data : List Nat) : List Nat :=
  ctrXor (ks key (normIv iv)) 0 data

/-- `EncryptKey::decrypt`: in CTR mode, the very same keystream
application as encryption. -/
def EncryptKey.decrypt (ks : Keystream) (key : EncryptKey)
    (iv : List Nat) (data : List Nat) : List Nat :=
  ctrXor (ks key (normIv iv)) 0 data

/-- `EncryptResult`: an IV together with the ciphertext bytes. -/
structure EncryptResult where
  iv : List Nat
  data : List Nat
  deriving DecidableEq, Repr

/-- `EncryptKey::encrypt`: encrypt under a freshly generated IV; the random
IV is passed in explicitly. -/
def EncryptKey.encrypt (ks : Keystream) (key : EncryptKey) (iv : List Nat)
    (data : List Nat) : EncryptResult :=
  { iv := iv, data := key.encrypt_with_iv ks iv data }

/-- `EncryptedPrivateKey`: a signing private key wrapped under a symmetric
key, keyed by that symmetric key's hash. -/
structure EncryptedPrivateKey where
  pk : PublicSignKey
  ek_hash : AteHash
  sk_iv : List Nat
  sk_encrypted : List Nat
  deriving DecidableEq, Repr

/-- `EncryptedPrivateKey::from_pair`: encrypt the secret-key bytes under
`encrypt_key` (with the freshly generated `iv`), store the public half,
the symmetric key's hash and the ciphertext. -/
def EncryptedPrivateKey.from_pair (ks : Keystream) (hashFn : HashFn)
    (pair : PrivateSignKey) (encrypt_key : EncryptKey) (iv : List Nat) :
    EncryptedPrivateKey :=
  let sk := pair.sk
  let skEnc := encrypt_key.encrypt ks iv sk
  { pk := pair.as_public_key
    ek_hash := hashFn encrypt_key.value
    sk_iv := skEnc.iv
    sk_encrypted := skEnc.data }

/-- `EncryptedPrivateKey::as_private_key`: decrypt the stored ciphertext
with the presented key and rebuild a private key around the stored public
half.  Note the stored `ek_hash` is never consulted and there is no
failure path. -/
def EncryptedPrivateKey.as_private_key (ks : Keystream)
    (self : EncryptedPrivateKey) (key : EncryptKey) : PrivateSignKey :=
  let data := key.decrypt ks self.sk_iv self.sk_encrypted
  match self.pk with
  | .Falcon512 pk => .Falcon512 (.Falcon512 pk) data
  | .Falcon1024 pk => .Falcon1024 (.Falcon1024 pk) data

/-! ## Metadata and the binary-tree indexer (`lib/src/index.rs`)

`FxHashMap` and `MultiMap` are modelled as key-unique association lists;
only lookup, insert, remove and in-place vector mutation are used. -/

/-- `MetaCollection`: names a parent collection (parent id, collection id). -/
structure MetaCollection where
  parent_id : PrimaryKey
  collection_id : Nat
  deriving DecidableEq, Repr

/-- `MetaTree`: places a record in a parent collection (field `vec`). -/
structure MetaTree where
  vec : MetaCollection
  deriving DecidableEq, Repr

/-- `CoreMetadata`: the tagged entries of an event header that the indexer
inspects; `other` stands for every tag the indexer ignores (`Type`,
`Reply`, `Authorization`, `Signature`, `Confidentiality`, ...). -/
inductive CoreMetadata where
  | Data (key : PrimaryKey)
  | Tombstone (key : PrimaryKey)
  | Tree (tree : MetaTree)
  | other
  deriving DecidableEq, Repr

/-- `Metadata`: the ordered list of core entries. -/
structure Metadata where
  core : List CoreMetadata
  deriving DecidableEq, Repr

/-- Modelled from the spec: `Metadata::get_tree` (declared in the repo's
`meta.rs`, which is not among the provided sources) returns the event's
`Tree(parent_id, collection_id)` placement entry — the first `Tree` tag of
the header. -/
def Metadata.get_tree (meta : Metadata) : Option MetaTree :=
  meta.core.findSome? fun c =>
    match c with
    | .Tree t => some t
    | _ => none

/-- Modelled from the spec: `Metadata::get_data_key` (declared in the
repo's `meta.rs`, not among the provided sources) returns the key of the
record this event writes — the first `Data(PrimaryKey)` tag of the
header. -/
def Metadata.get_data_key (meta : Metadata) : Option PrimaryKey :=
  meta.core.findSome? fun c =>
    match c with
    | .Data k => some k
    | _ => none

/-- `EventHeaderRaw`: the hashes of the canonical serialization; the
indexer reads `data_hash` (absent when the event has no payload) and
`event_hash`. -/
structure EventHeaderRaw where
  data_hash : Option AteHash
  event_hash : AteHash
  deriving DecidableEq, Repr

/-- `EventHeader`: metadata plus raw hashes. -/
structure EventHeader where
  meta : Metadata
  raw : EventHeaderRaw
  deriving DecidableEq, Repr

/-- Lookup in a key-unique association list (`FxHashMap::get`). -/
def alistGet {α β : Type} [DecidableEq α] (k : α) :
    List (α × β) → Option β
  | [] => none
  | (a, b) :: rest => if a = k then some b else alistGet k rest

/-- Insert-or-replace in a key-unique association list
(`FxHashMap::insert`). -/
def alistInsert {α β : Type} [DecidableEq α] (k : α) (v : β) :
    List (α × β) → List (α × β)
  | [] => [(k, v)]
  | (a, b) :: rest =>
    if a = k then (k, v) :: rest else (a, b) :: alistInsert k v rest

/-- Remove a key from a key-unique association list (`FxHashMap::remove`). -/
def alistRemove {α β : Type} [DecidableEq α] (k : α) :
    List (α × β) → List (α × β)
  | [] => []
  | (a, b) :: rest =>
    if a = k then rest else (a, b) :: alistRemove k rest

/-- `MultiMap::insert`: push the value onto the vector stored under the
key, creating the entry when absent. -/
def mmapInsert {α β : Type} [DecidableEq α] (k : α) (v : β) :
    List (α × List β) → List (α × List β)
  | [] => [(k, [v])]
  | (a, vs) :: rest =>
    if a = k then (a, vs ++ [v]) :: rest else (a, vs) :: mmapInsert k v rest

/-- `MultiMap::get_vec_mut` followed by `Vec::retain(|x| *x != *key)`:
drop every occurrence of `v` from the vector under `k`, when such a
vector exists. -/
def mmapRetainNe {α β : Type} [DecidableEq α] [DecidableEq β] (k : α)
    (v : β) : List (α × List β) → List (α × List β)
  | [] => []
  | (a, vs) :: rest =>
    if a = k then (a, vs.filter (fun x => x ≠ v)) :: rest
    else (a, vs) :: mmapRetainNe k v rest

/-- `BinaryTreeIndexer`: the primary (key to last event hash) map and the
secondary (parent collection to child keys) multimap. -/
structure BinaryTreeIndexer where
  primary : List (PrimaryKey × AteHash)
  secondary : List (MetaCollection × List PrimaryKey)
  deriving DecidableEq, Repr

/-- The key of the first `Tombstone` entry of a header, if any: the first
loop of `feed` stops (with `return`) at the first tombstone it sees. -/
def firstTombstone (core : List CoreMetadata) : Option PrimaryKey :=
  core.findSome? fun c =>
    match c with
    | .Tombstone k => some k
    | _ => none

/-- One step of the second loop of `feed` over a single core entry:
`Data(key)` inserts the event hash (unless the event has no payload);
`Tree` inserts the event's data key into that collection. -/
def feedInsertStep (entry : EventHeader) (st : BinaryTreeIndexer)
    (c : CoreMetadata) : BinaryTreeIndexer :=
  match c with
  | .Data key =>
    if entry.raw.data_hash = none then st
    else { st with primary := alistInsert key entry.raw.event_hash st.primary }
  | .Tree tree =>
    match entry.meta.get_data_key with
    | some key => { st with secondary := mmapInsert tree.vec key st.secondary }
    | none => st
  | _ => st

/-- `BinaryTreeIndexer::feed`: the first loop scans for a `Tombstone`; at
the first one it removes the key from the primary map, removes it from
the secondary vector of the collection named by this header's own `Tree`
entry (when present), and returns.  Only when no tombstone exists does
the second loop insert the `Data` and `Tree` entries. -/
def BinaryTreeIndexer.feed (st : BinaryTreeIndexer) (entry : EventHeader) :
    BinaryTreeIndexer :=
  match firstTombstone entry.meta.core with
  | some key =>
    let st := { st with primary := alistRemove key st.primary }
    match entry.meta.get_tree with
    | some tree =>
      { st with secondary := mmapRetainNe tree.vec key st.secondary }
    | none => st
  | none =>
    entry.meta.core.foldl (feedInsertStep entry) st

/-- `BinaryTreeIndexer::lookup_primary`. -/
def BinaryTreeIndexer.lookup_primary (st : BinaryTreeIndexer)
    (key : PrimaryKey) : Option AteHash :=
  alistGet key st.primary

/-- `BinaryTreeIndexer::lookup_secondary`: the children of a collection,
mapped through the primary index (keys without a live primary entry are
filtered out). -/
def BinaryTreeIndexer.lookup_secondary (st : BinaryTreeIndexer)
    (key : MetaCollection) : Option (List AteHash) :=
  match alistGet key st.secondary with
  | some vec => some (vec.filterMap (fun a => alistGet a st.primary))
  | none => none

/-! ## Mesh root server (`src/mesh/root.rs`)

The chain's loaded history is a `BTreeMap` from monotonically increasing
timeline offsets to event headers, with `history_reverse` mapping an event
hash back to its offset.  It is modelled as the association list of the
map's entries in ascending key order; an event is identified by its
`event_hash`.  Replies sent down the session's channel are collected into
a message list. -/

/-- The mesh messages relevant to subscription and locking
(`src/mesh/msg.rs`). -/
inductive Message where
  | StartOfHistory
  | EndOfHistory
  | NotThisRoot
  | Events (evts : List AteHash)
  | LockResult (key : PrimaryKey) (is_locked : Bool)
  deriving DecidableEq, Repr

/-- The loaded chain history: `(offset, event_hash)` entries in the
ascending offset order of the `BTreeMap`. -/
structure ChainHistory where
  entries : List (Nat × AteHash)
  deriving DecidableEq, Repr

/-- `chain.history_reverse.get(hash)`: the timeline offset of the entry
carrying this event hash. -/
def ChainHistory.reverseGet (hist : ChainHistory) (h : AteHash) :
    Option Nat :=
  (hist.entries.find? (fun e => e.2 = h)).map (·.1)

/-- The initial stream cursor of `inbox_subscribe`: the offset of the
first `history_sample` hash found in `history_reverse`, else the first
key of `history` (the log's head), else `none` for an empty history. -/
def resumeStart (hist : ChainHistory) (history_sample : List AteHash) :
    Option Nat :=
  match (history_sample.filterMap hist.reverseGet).head? with
  | some a => some a
  | none => hist.entries.head?.map (·.1)

/-- `chain.history.range(start..)`: the entries at offsets `>= start`. -/
def ChainHistory.rangeFrom (hist : ChainHistory) (start : Nat) :
    List (Nat × AteHash) :=
  hist.entries.filter (fun e => start ≤ e.1)

/-- The batching loop of `inbox_subscribe`, fuelled (each round either
finishes or drops 999 entries, so `length + 1` fuel always suffices): a
round reads up to 1000 entries from the cursor; when a full 1000 were
read, the next round restarts at the offset of the 1000th entry — which
is therefore sent again at the head of the next batch. -/
def sendBatchesF : Nat → List (Nat × AteHash) → List (List AteHash)
  | 0, _ => []
  | fuel + 1, l =>
    if l.length < 1000 then [l.map (·.2)]
    else (l.take 1000).map (·.2) :: sendBatchesF fuel (l.drop 999)

/-- The batches of event hashes the history loop emits for a remaining
suffix `l` (in `Message::Events` order). -/
def sendBatches (l : List (Nat × AteHash)) : List (List AteHash) :=
  sendBatchesF (l.length + 1) l

/-- The `Events` batches `inbox_subscribe` sends: none when the cursor
starts empty, else the batches of the range from the cursor. -/
def historyBatches (hist : ChainHistory) (history_sample : List AteHash) :
    List (List AteHash) :=
  match resumeStart hist history_sample with
  | none => []
  | some start => sendBatches (hist.rangeFrom start)

/-- `MeshRoot::inbox_subscribe`, as the sequence of messages sent down the
reply channel once the chain opened: `StartOfHistory`, the `Events`
batches, `EndOfHistory`. -/
def inbox_subscribe (hist : ChainHistory) (history_sample : List AteHash) :
    List Message :=
  Message.StartOfHistory ::
    (historyBatches hist history_sample).map Message.Events
    ++ [Message.EndOfHistory]

/-- The stream of replayed event hashes: the concatenation of the batches
with the duplicated batch-boundary events counted once. -/
def dedupFlatten : List (List AteHash) → List AteHash
  | [] => []
  | [b] => b
  | b :: c :: rest => b ++ (dedupFlatten (c :: rest)).tail

/-- Stated from the words of the claim, for comparison with the code: the
contiguous suffix of the log starting just after the most recent sample
hash that appears in the log (the matching entry with the greatest
offset), or the whole log if none of the sample hashes match. -/
def specCatchUp (hist : ChainHistory) (history_sample : List AteHash) :
    List AteHash :=
  let matched := hist.entries.filter (fun e => e.2 ∈ history_sample)
  match (matched.map (·.1)).max? with
  | some p => (hist.entries.filter (fun e => p < e.1)).map (·.2)
  | none => hist.entries.map (·.2)

/-- The replayed stream of `inbox_subscribe` with boundary duplicates
counted once. -/
def replayedEvents (hist : ChainHistory) (history_sample : List AteHash) :
    List AteHash :=
  dedupFlatten (historyBatches hist history_sample)

/-- Index of the first element satisfying `p`. -/
def findIdxOpt {α : Type} (p : α → Bool) : List α → Option Nat
  | [] => none
  | a :: rest => if p a then some 0 else (findIdxOpt p rest).map (· + 1)

/-- The position (by list index) of the first sample hash, in the
subscriber's list order, that appears in the log. -/
def firstMatchIdx (hist : ChainHistory) (history_sample : List AteHash) :
    Option Nat :=
  (history_sample.filterMap
    (fun h => findIdxOpt (fun e => e.2 = h) hist.entries)).head?

/-- The amended replay suffix: the contiguous suffix of the log starting
at (and including) the first sample hash in the subscriber's list order
that appears in the log, or the whole log when none matches. -/
def amendedSuffix (hist : ChainHistory) (history_sample : List AteHash) :
    List (Nat × AteHash) :=
  match firstMatchIdx hist history_sample with
  | some i => hist.entries.drop i
  | none => hist.entries

/-! ## Sessions, locks and disconnect (`src/mesh/root.rs`) -/

/-- `SessionContextProtected`: the chain the session is bound to and the
set of lock keys recorded for it (`FxHashSet`, modelled as a
duplicate-free list). -/
structure SessionContextProtected where
  chain_key : Option ChainKey
  locks : List PrimaryKey
  deriving DecidableEq, Repr

/-- The root's chain table: the chains already open in `self.chains` plus
the keys its cluster lookup resolves to one of its own addresses (for
which `open_internal` creates the chain on demand). -/
structure MeshRootState where
  chains : List ChainKey
  owned : List ChainKey
  deriving DecidableEq, Repr

/-- `ChainCreationError` cases reachable from `open_internal`. -/
inductive ChainCreationError where
  | NoRootFound
  | NotThisRoot
  deriving DecidableEq, Repr

/-- `MeshRoot::open` / `open_internal`: an already open chain is returned;
otherwise the chain is created when the lookup names this root, else
`NoRootFound`. -/
def MeshRoot.openChain (root : MeshRootState) (key : ChainKey) :
    Except ChainCreationError ChainKey :=
  if key ∈ root.chains then .ok key
  else if key ∈ root.owned then .ok key
  else .error .NoRootFound

/-- `FxHashSet::insert`: add the key when not already present. -/
def hashsetInsert (key : PrimaryKey) (s : List PrimaryKey) :
    List PrimaryKey :=
  if key ∈ s then s else s ++ [key]

/-- `MeshRoot::disconnected`: the list of `pipe.unlock` calls issued when
a session drops — none when the session never subscribed or the chain no
longer resolves, otherwise one per key in the session's lock set. -/
def MeshRoot.disconnected (root : MeshRootState)
    (context : SessionContextProtected) : List PrimaryKey :=
  match context.chain_key with
  | none => []
  | some k =>
    match MeshRoot.openChain root k with
    | .error _ => []
    | .ok _ => context.locks

/-- `MeshRoot::inbox_lock`, after the chain resolved: calls
`pipe.try_lock` (its outcome `try_lock_result` is an input here), inserts
the key into the session's lock set unconditionally, and replies with
`LockResult`. -/
def MeshRoot.inbox_lock (context : SessionContextProtected)
    (key : PrimaryKey) (try_lock_result : Bool) :
    SessionContextProtected × Message :=
  ({ context with locks := hashsetInsert key context.locks },
    Message.LockResult key try_lock_result)

/-- `MeshRoot::inbox_unlock`, after the chain resolved: removes the key
from the session's lock set and unlocks it on the chain pipe. -/
def MeshRoot.inbox_unlock (context : SessionContextProtected)
    (key : PrimaryKey) : SessionContextProtected :=
  { context with locks := context.locks.filter (fun x => x ≠ key) }

/-! ## Theorems -/

/-- C5: for every client hello exchange requesting encryption of size `s`,
a server reply offering no encryption or a strictly smaller key size makes
the client abort with `ServerEncryptionWeak` and return no metadata, while
a server reply offering size at least `s` completes the exchange without
that error. -/
theorem C5_server_encryption_weak (client_id : Nat)
    (hello_path domain : String) (s : KeySize)
    (hello_server : ReceiverHello) :
    (hello_server.encryption = none →
      mesh_hello_exchange_sender client_id hello_path domain (some s)
        hello_server = .error .ServerEncryptionWeak) ∧
    (∀ a, hello_server.encryption = some a → a.nbits < s.nbits →
      mesh_hello_exchange_sender client_id hello_path domain (some s)
        hello_server = .error .ServerEncryptionWeak) ∧
    (∀ a, hello_server.encryption = some a → s.nbits ≤ a.nbits →
      mesh_hello_exchange_sender client_id hello_path domain (some s)
        hello_server
        = .ok ({ client_id := client_id, server_id := hello_server.id
                 path := hello_path, encryption := some a
                 wire_format := hello_server.wire_format },
               hello_server.version.min .V2)) := by
  refine ⟨?_, ?_, ?_⟩
  · intro hnone
    simp [mesh_hello_exchange_sender, hnone]
  · intro a ha hlt
    simp [mesh_hello_exchange_sender, ha, hlt]
  · intro a ha hle
    simp [mesh_hello_exchange_sender, ha, Nat.not_lt.mpr hle]

/-- C5 witness: a client requiring 192-bit encryption against a server
offering only 128 bits aborts with `ServerEncryptionWeak`; the same client
against a 256-bit offer succeeds. -/
theorem C5_server_encryption_weak_witness :
    mesh_hello_exchange_sender 1 "chain" "tokera.com" (some .Bit192)
      ⟨2, some .Bit128, .Json, .V2⟩ = .error .ServerEncryptionWeak ∧
    mesh_hello_exchange_sender 1 "chain" "tokera.com" (some .Bit192)
      ⟨2, some .Bit256, .Json, .V2⟩
      = .ok ({ client_id := 1, server_id := 2, path := "chain"
               encryption := some .Bit256, wire_format := .Json },
             StreamProtocolVersion.min .V2 .V2) :=
  ⟨(C5_server_encryption_weak 1 "chain" "tokera.com" .Bit192
      ⟨2, some .Bit128, .Json, .V2⟩).2.1 .Bit128 rfl (by decide),
   (C5_server_encryption_weak 1 "chain" "tokera.com" .Bit192
      ⟨2, some .Bit256, .Json, .V2⟩).2.2 .Bit256 rfl (by decide)⟩

/-- C6: `StreamProtocolVersion::min` is symmetric and idempotent, and in
an exchange where the server answers the client's hello, a successful
client negotiation lands on the very version the server switched to,
which is the minimum (by `u16` discriminant) of the two advertised
versions. -/
theorem C6_version_negotiation :
    (∀ a b : StreamProtocolVersion, a.min b = b.min a) ∧
    (∀ a : StreamProtocolVersion, a.min a = a) ∧
    (∀ (cid sid : Nat) (path domain : String) (cks sks : Option KeySize)
       (wf : SerializationFormat) (md : HelloMetadata)
       (v : StreamProtocolVersion),
       mesh_hello_exchange_sender cid path domain cks
           (receiverHelloOf sid sks wf ⟨cid, path, domain, cks, .V2⟩)
         = .ok (md, v) →
       v = (mesh_hello_exchange_receiver sid sks wf
              ⟨cid, path, domain, cks, .V2⟩).2 ∧
       v.asU16 = Nat.min
         (receiverHelloOf sid sks wf
           ⟨cid, path, domain, cks, .V2⟩).version.asU16
         (StreamProtocolVersion.asU16 .V2)) := by
  refine ⟨fun a b => by cases a <;> cases b <;> rfl,
          fun a => by cases a <;> rfl, ?_⟩
  intro cid sid path domain cks sks wf md v hok
  have hv : v = StreamProtocolVersion.min .V2 .V2 := by
    cases cks with
    | none =>
      simp [mesh_hello_exchange_sender, receiverHelloOf] at hok
      exact hok.2.symm
    | some s =>
      cases sks with
      | none =>
        simp [mesh_hello_exchange_sender, receiverHelloOf,
          mesh_hello_upgrade_key] at hok
        exact hok.2.symm
      | some s2 =>
        by_cases h12 : s2.nbits < s.nbits
        · simp [mesh_hello_exchange_sender, receiverHelloOf,
            mesh_hello_upgrade_key, h12] at hok
          exact hok.2.symm
        · by_cases h21 : s.nbits < s2.nbits
          · simp [mesh_hello_exchange_sender, receiverHelloOf,
              mesh_hello_upgrade_key, h12, h21] at hok
            exact hok.2.symm
          · simp [mesh_hello_exchange_sender, receiverHelloOf,
              mesh_hello_upgrade_key, h12, h21] at hok
            exact hok.2.symm
  subst hv
  exact ⟨rfl, rfl⟩

/-- C6 witness: a concrete successful exchange (no encryption requested)
in which both sides land on `V2 = min(V2, V2)`. -/
theorem C6_version_negotiation_witness :
    StreamProtocolVersion.min .V2 .V2
      = (mesh_hello_exchange_receiver 2 none .Json
           ⟨1, "chain", "tokera.com", none, .V2⟩).2 ∧
    (StreamProtocolVersion.min .V2 .V2).asU16
      = Nat.min
          (receiverHelloOf 2 none .Json
            ⟨1, "chain", "tokera.com", none, .V2⟩).version.asU16
          (StreamProtocolVersion.asU16 .V2) :=
  C6_version_negotiation.2.2 1 2 "chain" "tokera.com" none none .Json
    { client_id := 1, server_id := 2, path := "chain", encryption := none
      wire_format := .Json }
    (StreamProtocolVersion.min .V2 .V2) rfl

/-- C9: `PrivateSignKey::generate` maps both `Bit128` and `Bit192` to the
same `Falcon512` key, `size` reports `Bit192` for every `Falcon512` key,
and hence `generate(Bit128).size() = Bit192 ≠ Bit128`. -/
theorem C9_generate_collapses_bit128 (kp512 kp1024 : FalconKeypairBytes) :
    PrivateSignKey.generate .Bit128 kp512 kp1024
      = PrivateSignKey.generate .Bit192 kp512 kp1024 ∧
    PrivateSignKey.generate .Bit128 kp512 kp1024
      = .Falcon512 (.Falcon512 kp512.pk) kp512.sk ∧
    (∀ pk sk, (PrivateSignKey.Falcon512 pk sk).size = .Bit192) ∧
    (PrivateSignKey.generate .Bit128 kp512 kp1024).size = .Bit192 ∧
    (PrivateSignKey.generate .Bit128 kp512 kp1024).size ≠ .Bit128 := by
  exact ⟨rfl, rfl, fun pk sk => rfl, rfl,
    show KeySize.Bit192 ≠ KeySize.Bit128 by decide⟩

/-- Helper: when the session is bound to a chain the root can resolve
(already open or owned by its cluster lookup), the disconnect handler
issues exactly the session's recorded lock keys. -/
theorem disconnected_eq_locks (root : MeshRootState)
    (context : SessionContextProtected) (ck : ChainKey)
    (hsub : context.chain_key = some ck)
    (hopen : ck ∈ root.chains ∨ ck ∈ root.owned) :
    MeshRoot.disconnected root context = context.locks := by
  unfold MeshRoot.disconnected MeshRoot.openChain
  rw [hsub]
  rcases hopen with h | h
  · simp [h]
  · by_cases h2 : ck ∈ root.chains <;> simp [h, h2]

/-- C8: a session that disconnects while subscribed to a chain the root
still resolves has `unlock` issued on that chain's pipe for every key in
its held-lock set (the unlock calls are exactly the recorded lock keys). -/
theorem C8_disconnect_releases_locks (root : MeshRootState)
    (context : SessionContextProtected) (ck : ChainKey)
    (hsub : context.chain_key = some ck)
    (hopen : ck ∈ root.chains ∨ ck ∈ root.owned) :
    MeshRoot.disconnected root context = context.locks ∧
    ∀ key ∈ context.locks, key ∈ MeshRoot.disconnected root context := by
  have h := disconnected_eq_locks root context ck hsub hopen
  exact ⟨h, fun key hk => h ▸ hk⟩

/-- C8 witness: a session subscribed to chain 7 holding locks 3 and 4 has
both unlocked at disconnect. -/
theorem C8_disconnect_releases_locks_witness :
    MeshRoot.disconnected ⟨[7], []⟩ ⟨some 7, [3, 4]⟩ = [3, 4] ∧
    ∀ key ∈ [3, 4], key ∈ MeshRoot.disconnected ⟨[7], []⟩ ⟨some 7, [3, 4]⟩ :=
  C8_disconnect_releases_locks ⟨[7], []⟩ ⟨some 7, [3, 4]⟩ 7 rfl
    (.inl (by decide))

/-- C10: `inbox_lock` records the requested key in the session's lock set
even when `try_lock` reported failure (`is_locked = false`), and the
disconnect cleanup therefore issues `unlock` for such a never-held key
too. -/
theorem C10_lock_recorded_unconditionally (root : MeshRootState)
    (context : SessionContextProtected) (key : PrimaryKey) (b : Bool)
    (ck : ChainKey) (hsub : context.chain_key = some ck)
    (hopen : ck ∈ root.chains ∨ ck ∈ root.owned) :
    key ∈ (MeshRoot.inbox_lock context key b).1.locks ∧
    (MeshRoot.inbox_lock context key b).2 = Message.LockResult key b ∧
    key ∈ MeshRoot.disconnected root (MeshRoot.inbox_lock context key false).1 := by
  refine ⟨?_, rfl, ?_⟩
  · unfold MeshRoot.inbox_lock hashsetInsert
    by_cases h : key ∈ context.locks <;> simp [h]
  · have hd := disconnected_eq_locks root (MeshRoot.inbox_lock context key false).1
      ck hsub hopen
    rw [hd]
    unfold MeshRoot.inbox_lock hashsetInsert
    by_cases h : key ∈ context.locks <;> simp [h]

/-- C10 witness: key 5 is requested with `try_lock` failing on a session
subscribed to chain 7; the key is still recorded and still unlocked at
disconnect. -/
theorem C10_lock_recorded_unconditionally_witness :
    5 ∈ (MeshRoot.inbox_lock ⟨some 7, []⟩ 5 false).1.locks ∧
    (MeshRoot.inbox_lock ⟨some 7, []⟩ 5 false).2
      = Message.LockResult 5 false ∧
    5 ∈ MeshRoot.disconnected ⟨[7], []⟩ (MeshRoot.inbox_lock ⟨some 7, []⟩ 5 false).1 :=
  C10_lock_recorded_unconditionally ⟨[7], []⟩ ⟨some 7, []⟩ 5 false 7 rfl
    (.inl (by decide))

/-- Helper: when the second buffer is at least as long, the in-place XOR
is a plain `zipWith`. -/
theorem xorBytes_eq_zipWith {l1 l2 : List Nat} (h : l1.length ≤ l2.length) :
    xorBytes l1 l2 = List.zipWith Nat.xor l1 l2 := by
  unfold xorBytes
  rw [List.drop_eq_nil_of_le h, List.append_nil]

/-- Helper: XOR of two equal-length 16-byte keys stays a 16-byte key. -/
theorem xor_aes128_aes128 {b1 b2 : List Nat} (h1 : b1.length = 16)
    (h2 : b2.length = 16) :
    (EncryptKey.Aes128 b1).xor (.Aes128 b2)
      = .Aes128 (List.zipWith Nat.xor b1 b2) := by
  unfold EncryptKey.xor
  rw [show (EncryptKey.Aes128 b1).value = b1 from rfl,
      show (EncryptKey.Aes128 b2).value = b2 from rfl,
      xorBytes_eq_zipWith (by rw [h1, h2])]
  simp [EncryptKey.from_bytes, List.length_zipWith, h1, h2]

/-- Helper: XOR of two equal-length 24-byte keys stays a 24-byte key. -/
theorem xor_aes192_aes192 {b1 b2 : List Nat} (h1 : b1.length = 24)
    (h2 : b2.length = 24) :
    (EncryptKey.Aes192 b1).xor (.Aes192 b2)
      = .Aes192 (List.zipWith Nat.xor b1 b2) := by
  unfold EncryptKey.xor
  rw [show (EncryptKey.Aes192 b1).value = b1 from rfl,
      show (EncryptKey.Aes192 b2).value = b2 from rfl,
      xorBytes_eq_zipWith (by rw [h1, h2])]
  simp [EncryptKey.from_bytes, List.length_zipWith, h1, h2]

/-- Helper: XOR of two equal-length 32-byte keys stays a 32-byte key. -/
theorem xor_aes256_aes256 {b1 b2 : List Nat} (h1 : b1.length = 32)
    (h2 : b2.length = 32) :
    (EncryptKey.Aes256 b1).xor (.Aes256 b2)
      = .Aes256 (List.zipWith Nat.xor b1 b2) := by
  unfold EncryptKey.xor
  rw [show (EncryptKey.Aes256 b1).value = b1 from rfl,
      show (EncryptKey.Aes256 b2).value = b2 from rfl,
      xorBytes_eq_zipWith (by rw [h1, h2])]
  simp [EncryptKey.from_bytes, List.length_zipWith, h1, h2]

/-- Helper: bytewise XOR of lists is commutative. -/
theorem zipWith_xor_comm (l1 l2 : List Nat) :
    List.zipWith Nat.xor l1 l2 = List.zipWith Nat.xor l2 l1 :=
  List.zipWith_comm_of_comm Nat.xor Nat.xor_comm l1 l2

/-- Helper: bytewise XOR of lists is associative. -/
theorem zipWith_xor_assoc : ∀ l1 l2 l3 : List Nat,
    List.zipWith Nat.xor (List.zipWith Nat.xor l1 l2) l3
      = List.zipWith Nat.xor l1 (List.zipWith Nat.xor l2 l3)
  | [], _, _ => by simp
  | _ :: _, [], _ => by simp
  | _ :: _, _ :: _, [] => by simp
  | a :: l1, b :: l2, c :: l3 => by
    simp only [List.zipWith]
    exact congrArg₂ _ (Nat.xor_assoc a b c) (zipWith_xor_assoc l1 l2 l3)

/-- C4 counterexample: with mixed sizes `EncryptKey::xor` keeps the first
operand's size, so it is not commutative — XOR of an all-zero 128-bit key
with an all-zero 192-bit key differs by size from the reverse order. -/
theorem C4_xor_mixed_not_comm :
    EncryptKey.xor (.Aes128 (List.replicate 16 0)) (.Aes192 (List.replicate 24 0))
      ≠ EncryptKey.xor (.Aes192 (List.replicate 24 0)) (.Aes128 (List.replicate 16 0)) := by
  decide

/-- C4 amended: for keys of one common size (well-formed byte lengths),
`EncryptKey::xor` is commutative and associative; with mixed sizes the
result always takes the first operand's size, so the law fails there. -/
theorem C4_xor_comm_assoc_same_size :
    (∀ a b : EncryptKey, a.wfb → b.wfb → a.size = b.size →
      a.xor b = b.xor a) ∧
    (∀ a b c : EncryptKey, a.wfb → b.wfb → c.wfb →
      a.size = b.size → b.size = c.size →
      (a.xor b).xor c = a.xor (b.xor c)) ∧
    (∀ a b : EncryptKey, a.wfb → b.wfb → (a.xor b).size = a.size) := by
  refine ⟨?_, ?_, ?_⟩
  · intro a b ha hb hsize
    cases a <;> cases b <;>
      simp [EncryptKey.size, EncryptKey.wfb] at ha hb hsize <;>
      first
      | rw [xor_aes128_aes128 ha hb, xor_aes128_aes128 hb ha,
            zipWith_xor_comm]
      | rw [xor_aes192_aes192 ha hb, xor_aes192_aes192 hb ha,
            zipWith_xor_comm]
      | rw [xor_aes256_aes256 ha hb, xor_aes256_aes256 hb ha,
            zipWith_xor_comm]
  · intro a b c ha hb hc hab hbc
    cases a <;> cases b <;> cases c <;>
      simp [EncryptKey.size, EncryptKey.wfb] at ha hb hc hab hbc <;>
      first
      | rw [xor_aes128_aes128 ha hb, xor_aes128_aes128 hb hc,
            xor_aes128_aes128 (by rw [List.length_zipWith, ha, hb]; rfl) hc,
            xor_aes128_aes128 ha (by rw [List.length_zipWith, hb, hc]; rfl),
            zipWith_xor_assoc]
      | rw [xor_aes192_aes192 ha hb, xor_aes192_aes192 hb hc,
            xor_aes192_aes192 (by rw [List.length_zipWith, ha, hb]; rfl) hc,
            xor_aes192_aes192 ha (by rw [List.length_zipWith, hb, hc]; rfl),
            zipWith_xor_assoc]
      | rw [xor_aes256_aes256 ha hb, xor_aes256_aes256 hb hc,
            xor_aes256_aes256 (by rw [List.length_zipWith, ha, hb]; rfl) hc,
            xor_aes256_aes256 ha (by rw [List.length_zipWith, hb, hc]; rfl),
            zipWith_xor_assoc]
  · intro a b ha hb
    cases a <;> cases b <;>
      simp [EncryptKey.wfb] at ha hb <;>
      unfold EncryptKey.xor <;>
      simp [EncryptKey.value, EncryptKey.from_bytes, EncryptKey.size,
        xorBytes, List.length_zipWith, ha, hb]

/-- C4 amended witness: two concrete 16-byte keys commute and three
associate; XOR with a same-size key preserves the size. -/
theorem C4_xor_comm_assoc_same_size_witness :
    (EncryptKey.Aes128 (List.replicate 16 1)).xor (.Aes128 (List.replicate 16 2))
      = (EncryptKey.Aes128 (List.replicate 16 2)).xor (.Aes128 (List.replicate 16 1)) ∧
    ((EncryptKey.Aes128 (List.replicate 16 1)).xor (.Aes128 (List.replicate 16 2))).xor
        (.Aes128 (List.replicate 16 4))
      = (EncryptKey.Aes128 (List.replicate 16 1)).xor
          ((EncryptKey.Aes128 (List.replicate 16 2)).xor (.Aes128 (List.replicate 16 4))) ∧
    ((EncryptKey.Aes128 (List.replicate 16 1)).xor
        (.Aes128 (List.replicate 16 2))).size
      = (EncryptKey.Aes128 (List.replicate 16 1)).size :=
  ⟨C4_xor_comm_assoc_same_size.1 _ _ (by decide) (by decide) (by decide),
   C4_xor_comm_assoc_same_size.2.1 _ _ _ (by decide) (by decide) (by decide)
     (by decide) (by decide),
   C4_xor_comm_assoc_same_size.2.2 _ _ (by decide) (by decide)⟩

/-- Helper: applying the same CTR keystream twice restores the data. -/
theorem ctrXor_ctrXor (pad : Nat → Nat) : ∀ (i : Nat) (data : List Nat),
    ctrXor pad i (ctrXor pad i data) = data
  | _, [] => rfl
  | i, b :: rest => by
    simp only [ctrXor]
    exact congrArg₂ _ (Nat.xor_cancel_right (pad i) b)
      (ctrXor_ctrXor pad (i + 1) rest)

/-- C3 amended: decrypting an `EncryptedPrivateKey` with the wrapping
symmetric key restores the original signing key (for any CTR keystream and
any key whose stored public half matches its variant), but
`as_private_key` never consults the stored `ek_hash`: its result is
entirely independent of that field, so a mismatched key is not detected —
it silently yields a decryption under the wrong keystream. -/
theorem C3_envelope_roundtrip_no_hash_check :
    (∀ (ks : Keystream) (hashFn : HashFn) (pair : PrivateSignKey)
       (key : EncryptKey) (iv : List Nat),
       pair.wfb →
       (EncryptedPrivateKey.from_pair ks hashFn pair key iv).as_private_key
         ks key = pair) ∧
    (∀ (ks : Keystream) (epk : EncryptedPrivateKey) (key : EncryptKey)
       (h1 h2 : AteHash),
       EncryptedPrivateKey.as_private_key ks { epk with ek_hash := h1 } key
         = EncryptedPrivateKey.as_private_key ks { epk with ek_hash := h2 }
             key) := by
  constructor
  · intro ks hashFn pair key iv hwf
    cases pair with
    | Falcon512 pk sk =>
      cases pk with
      | Falcon512 pkb =>
        simp [EncryptedPrivateKey.from_pair, EncryptedPrivateKey.as_private_key,
          PrivateSignKey.as_public_key, PrivateSignKey.sk, EncryptKey.encrypt,
          EncryptKey.encrypt_with_iv, EncryptKey.decrypt, ctrXor_ctrXor]
      | Falcon1024 pkb => simp [PrivateSignKey.wfb] at hwf
    | Falcon1024 pk sk =>
      cases pk with
      | Falcon512 pkb => simp [PrivateSignKey.wfb] at hwf
      | Falcon1024 pkb =>
        simp [EncryptedPrivateKey.from_pair, EncryptedPrivateKey.as_private_key,
          PrivateSignKey.as_public_key, PrivateSignKey.sk, EncryptKey.encrypt,
          EncryptKey.encrypt_with_iv, EncryptKey.decrypt, ctrXor_ctrXor]
  · intro ks epk key h1 h2
    rfl

/-- C3 counterexample: under a concrete keystream and hash, unwrapping
with a key whose hash differs from the stored `ek_hash` raises no error at
all — `as_private_key` returns a well-formed `Falcon512` private key whose
secret bytes differ from the wrapped ones, i.e. the mismatch is silently
undetected rather than detected. -/
theorem C3_wrong_key_not_detected :
    (fun (b : List Nat) => b.headD 0)
        (EncryptKey.value (.Aes128 (List.replicate 16 2)))
      ≠ (EncryptedPrivateKey.from_pair (fun k _ _ => k.value.headD 0)
          (fun b => b.headD 0) (.Falcon512 (.Falcon512 [9]) [5])
          (.Aes128 (List.replicate 16 1)) (List.replicate 16 0)).ek_hash ∧
    EncryptedPrivateKey.as_private_key (fun k _ _ => k.value.headD 0)
        (EncryptedPrivateKey.from_pair (fun k _ _ => k.value.headD 0)
          (fun b => b.headD 0) (.Falcon512 (.Falcon512 [9]) [5])
          (.Aes128 (List.replicate 16 1)) (List.replicate 16 0))
        (.Aes128 (List.replicate 16 2))
      = PrivateSignKey.Falcon512 (.Falcon512 [9]) [6] ∧
    PrivateSignKey.Falcon512 (.Falcon512 [9]) [6]
      ≠ PrivateSignKey.Falcon512 (.Falcon512 [9]) [5] := by
  refine ⟨by decide, ?_, by decide⟩
  rfl

/-- C3 witness: the round trip at concrete values — wrapping a Falcon-512
key under a 16-byte AES key and unwrapping with the same key restores it. -/
theorem C3_envelope_roundtrip_witness :
    (EncryptedPrivateKey.from_pair (fun k _ _ => k.value.headD 0)
        (fun b => b.headD 0) (.Falcon512 (.Falcon512 [9]) [5])
        (.Aes128 (List.replicate 16 1))
        (List.replicate 16 0)).as_private_key
      (fun k _ _ => k.value.headD 0) (.Aes128 (List.replicate 16 1))
      = PrivateSignKey.Falcon512 (.Falcon512 [9]) [5] :=
  C3_envelope_roundtrip_no_hash_check.1 (fun k _ _ => k.value.headD 0)
    (fun b => b.headD 0) (.Falcon512 (.Falcon512 [9]) [5])
    (.Aes128 (List.replicate 16 1)) (List.replicate 16 0) (by decide)

/-- Helper: a `firstTombstone` hit names a `Tombstone` entry of the
header. -/
theorem firstTombstone_mem : ∀ (core : List CoreMetadata) (k : PrimaryKey),
    firstTombstone core = some k → CoreMetadata.Tombstone k ∈ core := by
  intro core
  induction core with
  | nil => intro k h; simp [firstTombstone] at h
  | cons c rest ih =>
    intro k h
    cases c with
    | Tombstone k2 =>
      simp [firstTombstone, List.findSome?] at h
      simp [h]
    | Data k2 =>
      simp only [firstTombstone, List.findSome?_cons] at h
      exact List.mem_cons_of_mem _ (ih k h)
    | Tree t =>
      simp only [firstTombstone, List.findSome?_cons] at h
      exact List.mem_cons_of_mem _ (ih k h)
    | other =>
      simp only [firstTombstone, List.findSome?_cons] at h
      exact List.mem_cons_of_mem _ (ih k h)

/-- Helper: removing one key from an association list leaves lookups of
other keys unchanged. -/
theorem alistGet_remove_ne {β : Type} (k k2 : Nat) (hne : k2 ≠ k) :
    ∀ l : List (Nat × β), alistGet k (alistRemove k2 l) = alistGet k l := by
  intro l
  induction l with
  | nil => rfl
  | cons p rest ih =>
    by_cases h : p.1 = k2
    · have hk : ¬ p.1 = k := by rw [h]; exact hne
      simp [alistRemove, alistGet, h, hk, hne]
    · by_cases h2 : p.1 = k <;>
        simp [alistRemove, alistGet, h, h2, hne, Ne.symm hne, ih]

/-- Helper: a key absent from the key column looks up to `none`. -/
theorem alistGet_none_of_not_mem {β : Type} (k : Nat) :
    ∀ l : List (Nat × β), k ∉ l.map Prod.fst → alistGet k l = none := by
  intro l
  induction l with
  | nil => intro; rfl
  | cons p rest ih =>
    intro h
    simp only [List.map_cons, List.mem_cons] at h
    push_neg at h
    have hne : ¬ p.1 = k := fun hh => h.1 hh.symm
    simp [alistGet, hne, ih h.2]

/-- Helper: on a key-unique association list, removal makes the removed
key look up to `none`. -/
theorem alistGet_remove_self {β : Type} (k : Nat) :
    ∀ l : List (Nat × β), (l.map Prod.fst).Nodup →
    alistGet k (alistRemove k l) = none := by
  intro l
  induction l with
  | nil => intro; rfl
  | cons p rest ih =>
    intro hnodup
    simp only [List.map_cons, List.nodup_cons] at hnodup
    by_cases h : p.1 = k
    · rw [show alistRemove k (p :: rest) = rest by simp [alistRemove, h]]
      exact alistGet_none_of_not_mem k rest (h ▸ hnodup.1)
    · simp [alistRemove, alistGet, h, ih hnodup.2]

/-- Helper: when the event carries no payload bytes, the insert loop of
`feed` never touches the primary map (`Data` entries are skipped and
`Tree` entries only write the secondary multimap). -/
theorem foldl_insert_primary_of_no_payload (e : EventHeader)
    (hnone : e.raw.data_hash = none) :
    ∀ (core : List CoreMetadata) (st : BinaryTreeIndexer),
    (core.foldl (feedInsertStep e) st).primary = st.primary := by
  intro core
  induction core with
  | nil => intro st; rfl
  | cons c rest ih =>
    intro st
    rw [List.foldl_cons, ih]
    cases c with
    | Data k => simp [feedInsertStep, hnone]
    | Tombstone k => rfl
    | Tree t => cases hdk : e.meta.get_data_key <;> simp [feedInsertStep, hdk]
    | other => rfl

/-- C2 counterexample: feeding the header `[Tombstone 1, Tombstone 2]`
into an index where both keys are live and key 1 sits in the secondary
vector of collection `(9, 7)` removes only the first tombstoned key from
the primary map — key 2 stays mapped — and, the header carrying no `Tree`
entry, key 1 also stays in that secondary vector. -/
theorem C2_tombstone_partial_effect :
    (BinaryTreeIndexer.feed ⟨[(1, 100), (2, 200)], [(⟨9, 7⟩, [1])]⟩
        ⟨⟨[.Tombstone 1, .Tombstone 2]⟩, ⟨none, 300⟩⟩).lookup_primary 2
      = some 200 ∧
    alistGet ⟨9, 7⟩
        (BinaryTreeIndexer.feed ⟨[(1, 100), (2, 200)], [(⟨9, 7⟩, [1])]⟩
          ⟨⟨[.Tombstone 1, .Tombstone 2]⟩, ⟨none, 300⟩⟩).secondary
      = some [1] := by
  exact ⟨rfl, rfl⟩

/-- C2 amended: `feed` processes only the first `Tombstone(k)` of a
header and then returns: `k` is removed from the primary map (and maps to
nothing afterwards, on a key-unique index), the secondary multimap loses
`k` only from the single collection named by this header's own `Tree`
entry (unchanged when the header has none), and no `Data` or `Tree`
entry of the same header is inserted. -/
theorem C2_tombstone_first_only (st : BinaryTreeIndexer) (e : EventHeader)
    (k : PrimaryKey) (h : firstTombstone e.meta.core = some k)
    (hnodup : (st.primary.map Prod.fst).Nodup) :
    (st.feed e).primary = alistRemove k st.primary ∧
    (st.feed e).lookup_primary k = none ∧
    (st.feed e).secondary
      = (match e.meta.get_tree with
         | some tree => mmapRetainNe tree.vec k st.secondary
         | none => st.secondary) := by
  unfold BinaryTreeIndexer.feed
  rw [h]
  cases htree : e.meta.get_tree with
  | none =>
    exact ⟨rfl, alistGet_remove_self k st.primary hnodup, rfl⟩
  | some tree =>
    exact ⟨rfl, alistGet_remove_self k st.primary hnodup, rfl⟩

/-- C2 amended witness: feeding `[Tombstone 1, Tombstone 2]` with no
`Tree` entry on a concrete two-key index. -/
theorem C2_tombstone_first_only_witness :
    (BinaryTreeIndexer.feed ⟨[(1, 100), (2, 200)], []⟩
        ⟨⟨[.Tombstone 1, .Tombstone 2]⟩, ⟨none, 300⟩⟩).primary
      = alistRemove 1 [(1, 100), (2, 200)] ∧
    (BinaryTreeIndexer.feed ⟨[(1, 100), (2, 200)], []⟩
        ⟨⟨[.Tombstone 1, .Tombstone 2]⟩, ⟨none, 300⟩⟩).lookup_primary 1
      = none ∧
    (BinaryTreeIndexer.feed ⟨[(1, 100), (2, 200)], []⟩
        ⟨⟨[.Tombstone 1, .Tombstone 2]⟩, ⟨none, 300⟩⟩).secondary
      = (match Metadata.get_tree ⟨[.Tombstone 1, .Tombstone 2]⟩ with
         | some tree => mmapRetainNe tree.vec 1 []
         | none => []) :=
  C2_tombstone_first_only ⟨[(1, 100), (2, 200)], []⟩
    ⟨⟨[.Tombstone 1, .Tombstone 2]⟩, ⟨none, 300⟩⟩ 1 rfl (by decide)

/-- C7 counterexample: a header carrying both `Tombstone(1)` and
`Data(1)` with no payload bytes does change the primary entry of key 1
(the tombstone erases it), so the claim fails as universally stated. -/
theorem C7_data_no_payload_tombstoned :
    (BinaryTreeIndexer.feed ⟨[(1, 100)], []⟩
        ⟨⟨[.Tombstone 1, .Data 1]⟩, ⟨none, 300⟩⟩).lookup_primary 1
      = none ∧
    (BinaryTreeIndexer.lookup_primary ⟨[(1, 100)], []⟩ 1 = some 100) ∧
    ((none : Option AteHash) ≠ some 100) := by
  exact ⟨rfl, rfl, by decide⟩

/-- C7 amended: feeding a header that contains `Data(k)` but no payload
bytes leaves the primary entry of `k` unchanged, provided the same header
does not also tombstone `k` itself (a `Tombstone(k)` in the same header
removes the entry; tombstones of other keys and `Tree` entries leave
`k`'s primary entry alone, and the `Data(k)` insert is skipped). -/
theorem C7_data_no_payload_no_insert (st : BinaryTreeIndexer)
    (e : EventHeader) (k : PrimaryKey)
    (_hdata : CoreMetadata.Data k ∈ e.meta.core)
    (hnone : e.raw.data_hash = none)
    (hnot : CoreMetadata.Tombstone k ∉ e.meta.core) :
    (st.feed e).lookup_primary k = st.lookup_primary k := by
  unfold BinaryTreeIndexer.feed
  cases hft : firstTombstone e.meta.core with
  | none =>
    unfold BinaryTreeIndexer.lookup_primary
    rw [foldl_insert_primary_of_no_payload e hnone]
  | some k2 =>
    have hne : k2 ≠ k := by
      intro hne
      exact hnot (hne ▸ firstTombstone_mem e.meta.core k2 hft)
    cases htree : e.meta.get_tree with
    | none =>
      unfold BinaryTreeIndexer.lookup_primary
      exact alistGet_remove_ne k k2 hne st.primary
    | some tree =>
      unfold BinaryTreeIndexer.lookup_primary
      exact alistGet_remove_ne k k2 hne st.primary

/-- C7 amended witness: a tombstone-free header with `Data(5)` and no
payload leaves key 5's primary entry untouched. -/
theorem C7_data_no_payload_no_insert_witness :
    (BinaryTreeIndexer.feed ⟨[(5, 500)], []⟩
        ⟨⟨[.Data 5, .other]⟩, ⟨none, 300⟩⟩).lookup_primary 5
      = BinaryTreeIndexer.lookup_primary ⟨[(5, 500)], []⟩ 5 :=
  C7_data_no_payload_no_insert ⟨[(5, 500)], []⟩
    ⟨⟨[.Data 5, .other]⟩, ⟨none, 300⟩⟩ 5 (by decide) rfl (by decide)

/-- Helper: with positive fuel the batching loop emits at least one
batch. -/
theorem sendBatchesF_ne_nil (fuel : Nat) (l : List (Nat × AteHash))
    (h : 0 < fuel) : sendBatchesF fuel l ≠ [] := by
  cases fuel with
  | zero => omega
  | succ n => by_cases hlen : l.length < 1000 <;> simp [sendBatchesF, hlen]

/-- Helper: every batch the loop emits holds at most 1000 events. -/
theorem sendBatchesF_batch_le : ∀ (fuel : Nat) (l : List (Nat × AteHash)),
    l.length < fuel → ∀ b ∈ sendBatchesF fuel l, b.length ≤ 1000 := by
  intro fuel
  induction fuel with
  | zero => intro l h; omega
  | succ n ih =>
    intro l h b hb
    by_cases hlen : l.length < 1000
    · simp [sendBatchesF, hlen] at hb
      subst hb
      simp
      omega
    · simp [sendBatchesF, hlen] at hb
      rcases hb with hb | hb
      · subst hb
        simp
      · exact ih (l.drop 999) (by rw [List.length_drop]; omega) b hb

/-- Helper: the tail of a mapped list is the mapped tail. -/
theorem map_tail_pair (f : Nat × AteHash → AteHash)
    (l : List (Nat × AteHash)) : (l.map f).tail = l.tail.map f := by
  cases l <;> rfl

/-- Helper: concatenating the emitted batches while counting each
duplicated batch-boundary event once restores exactly the remaining
suffix. -/
theorem dedupFlatten_sendBatchesF : ∀ (fuel : Nat)
    (l : List (Nat × AteHash)), l.length < fuel →
    dedupFlatten (sendBatchesF fuel l) = l.map (·.2) := by
  intro fuel
  induction fuel with
  | zero => intro l h; omega
  | succ n ih =>
    intro l h
    by_cases hlen : l.length < 1000
    · simp [sendBatchesF, hlen, dedupFlatten]
    · have hdrop : (l.drop 999).length < n := by
        rw [List.length_drop]; omega
      have hne : sendBatchesF n (l.drop 999) ≠ [] :=
        sendBatchesF_ne_nil n (l.drop 999) (by omega)
      rw [show sendBatchesF (n + 1) l
            = (l.take 1000).map (·.2) :: sendBatchesF n (l.drop 999) by
          simp [sendBatchesF, hlen]]
      cases hS : sendBatchesF n (l.drop 999) with
      | nil => exact absurd hS hne
      | cons c rest =>
        rw [dedupFlatten, ← hS, ih (l.drop 999) hdrop, map_tail_pair]
        rw [show (l.drop 999).tail = l.drop 1000 by
          rw [List.tail_drop]]
        rw [← List.map_append, List.take_append_drop]

/-- Helper: `findIdxOpt` misses exactly when `find?` misses. -/
theorem findIdxOpt_none_iff {α : Type} (p : α → Bool) :
    ∀ l : List α, findIdxOpt p l = none ↔ l.find? p = none := by
  intro l
  induction l with
  | nil => simp [findIdxOpt]
  | cons a rest ih =>
    cases h : p a
    · simp [findIdxOpt, h, List.find?_cons, ih]
    · simp [findIdxOpt, h, List.find?_cons]

/-- Helper: on a strictly sorted entry list, the range filter from the
offset of the first match equals the positional suffix at the index of
the first match. -/
theorem filter_ge_eq_drop (p : Nat × AteHash → Bool) :
    ∀ l : List (Nat × AteHash), l.Pairwise (fun a b => a.1 < b.1) →
    ∀ (e : Nat × AteHash) (i : Nat), l.find? p = some e →
    findIdxOpt p l = some i →
    l.filter (fun x => e.1 ≤ x.1) = l.drop i := by
  intro l
  induction l with
  | nil => intro _ e i h; simp at h
  | cons a rest ih =>
    intro hsort e i hfind hidx
    have hsort2 := List.pairwise_cons.mp hsort
    cases hp : p a
    · rw [List.find?_cons, hp] at hfind
      rw [show findIdxOpt p (a :: rest)
            = (findIdxOpt p rest).map (· + 1) by simp [findIdxOpt, hp]]
        at hidx
      cases hj : findIdxOpt p rest with
      | none => rw [hj] at hidx; simp at hidx
      | some j =>
        rw [hj] at hidx
        simp at hidx
        have hij : i = j + 1 := by omega
        have he : e ∈ rest := List.mem_of_find?_eq_some hfind
        have hlt : a.1 < e.1 := hsort2.1 e he
        rw [List.filter_cons]
        rw [if_neg (by simp; omega)]
        rw [hij, List.drop_succ_cons]
        exact ih hsort2.2 e j hfind hj
    · rw [List.find?_cons, hp] at hfind
      have he : e = a := by
        injection hfind with hh
        exact hh.symm
      have hi : i = 0 := by
        rw [show findIdxOpt p (a :: rest) = some 0 by
          simp [findIdxOpt, hp]] at hidx
        injection hidx with hh
        exact hh.symm
      subst he
      subst hi
      rw [List.drop_zero, List.filter_cons]
      rw [if_pos (by simp)]
      rw [List.filter_eq_self.mpr]
      intro x hx
      simp
      exact Nat.le_of_lt (hsort2.1 x hx)

/-- Helper: the cursor-and-range computation of `inbox_subscribe` selects
exactly the amended suffix: the entries from the first recognised sample
hash onwards (inclusive), or the whole log when no sample matches. -/
theorem resume_eq_amendedSuffix (hist : ChainHistory)
    (hsort : hist.entries.Pairwise (fun a b => a.1 < b.1)) :
    ∀ sample : List AteHash,
    (match resumeStart hist sample with
     | none => []
     | some s => hist.rangeFrom s) = amendedSuffix hist sample := by
  intro sample
  induction sample with
  | nil =>
    cases hent : hist.entries with
    | nil =>
      simp [resumeStart, amendedSuffix, firstMatchIdx, hent,
        ChainHistory.rangeFrom]
    | cons a rest =>
      have hres : resumeStart hist [] = some a.1 := by
        simp [resumeStart, hent]
      have hamend : amendedSuffix hist [] = a :: rest := by
        simp [amendedSuffix, firstMatchIdx, hent]
      rw [hres, hamend]
      show hist.rangeFrom a.1 = a :: rest
      unfold ChainHistory.rangeFrom
      rw [hent, List.filter_cons, if_pos (by simp)]
      rw [List.filter_eq_self.mpr]
      intro x hx
      have := (List.pairwise_cons.mp (hent ▸ hsort)).1 x hx
      simp
      omega
  | cons h hs ih =>
    cases hrev : hist.reverseGet h with
    | none =>
      have hfindnone : hist.entries.find? (fun e => e.2 = h) = none := by
        unfold ChainHistory.reverseGet at hrev
        cases hf : hist.entries.find? (fun e => e.2 = h) with
        | none => rfl
        | some e => rw [hf] at hrev; simp at hrev
      have hidxnone : findIdxOpt (fun e => e.2 = h) hist.entries = none :=
        (findIdxOpt_none_iff _ hist.entries).mpr hfindnone
      have hres : resumeStart hist (h :: hs) = resumeStart hist hs := by
        unfold resumeStart
        rw [List.filterMap_cons, hrev]
      have hamend : amendedSuffix hist (h :: hs) = amendedSuffix hist hs := by
        unfold amendedSuffix firstMatchIdx
        rw [List.filterMap_cons, hidxnone]
      rw [hres, hamend]
      exact ih
    | some off =>
      obtain ⟨e, hfind, hoff⟩ :
          ∃ e, hist.entries.find? (fun x => x.2 = h) = some e ∧
            off = e.1 := by
        unfold ChainHistory.reverseGet at hrev
        cases hf : hist.entries.find? (fun x => x.2 = h) with
        | none => rw [hf] at hrev; simp at hrev
        | some e2 =>
          rw [hf] at hrev
          simp at hrev
          exact ⟨e2, rfl, hrev.symm⟩
      obtain ⟨i, hidx⟩ :
          ∃ i, findIdxOpt (fun x => x.2 = h) hist.entries = some i := by
        cases hfi : findIdxOpt (fun x => x.2 = h) hist.entries with
        | none =>
          rw [(findIdxOpt_none_iff _ hist.entries).mp hfi] at hfind
          simp at hfind
        | some i => exact ⟨i, rfl⟩
      have hres : resumeStart hist (h :: hs) = some off := by
        unfold resumeStart
        rw [List.filterMap_cons, hrev]
        rfl
      have hamend : amendedSuffix hist (h :: hs) = hist.entries.drop i := by
        unfold amendedSuffix firstMatchIdx
        rw [List.filterMap_cons, hidx]
        rfl
      rw [hres, hamend]
      show hist.rangeFrom off = hist.entries.drop i
      unfold ChainHistory.rangeFrom
      subst hoff
      exact filter_ge_eq_drop _ hist.entries hsort e i hfind hidx

/-- C1 counterexample: for the log `[(0,10),(1,11),(2,12)]` and sample
`[11]`, the replay resumes at the matching event itself, so the code
streams `[11, 12]`, while the claim's suffix "just after the most recent
matching sample hash" is `[12]`. -/
theorem C1_replay_includes_match :
    replayedEvents ⟨[(0, 10), (1, 11), (2, 12)]⟩ [11] = [11, 12] ∧
    specCatchUp ⟨[(0, 10), (1, 11), (2, 12)]⟩ [11] = [12] ∧
    replayedEvents ⟨[(0, 10), (1, 11), (2, 12)]⟩ [11]
      ≠ specCatchUp ⟨[(0, 10), (1, 11), (2, 12)]⟩ [11] := by
  refine ⟨rfl, rfl, by decide⟩

/-- C1 amended: the subscription replay brackets the stream between
`StartOfHistory` and `EndOfHistory`, every batch holds at most 1000
events, and the replayed events (counting each duplicated batch-boundary
event once) are exactly the contiguous suffix of the log starting at —
and including — the first sample hash of the subscriber's list that
appears in the log, or the whole log when none matches. -/
theorem C1_subscribe_replay (hist : ChainHistory) (sample : List AteHash)
    (hsort : hist.entries.Pairwise (fun a b => a.1 < b.1)) :
    inbox_subscribe hist sample
      = Message.StartOfHistory ::
          (historyBatches hist sample).map Message.Events
          ++ [Message.EndOfHistory] ∧
    (∀ b ∈ historyBatches hist sample, b.length ≤ 1000) ∧
    replayedEvents hist sample = (amendedSuffix hist sample).map (·.2) := by
  refine ⟨rfl, ?_, ?_⟩
  · intro b hb
    unfold historyBatches at hb
    cases hrs : resumeStart hist sample with
    | none => rw [hrs] at hb; simp at hb
    | some s =>
      rw [hrs] at hb
      exact sendBatchesF_batch_le _ _ (Nat.lt_succ_self _) b hb
  · have hkey := resume_eq_amendedSuffix hist hsort sample
    unfold replayedEvents historyBatches
    cases hrs : resumeStart hist sample with
    | none =>
      rw [hrs] at hkey
      rw [← hkey]
      rfl
    | some s =>
      rw [hrs] at hkey
      rw [← hkey]
      exact dedupFlatten_sendBatchesF _ _ (Nat.lt_succ_self _)

/-- C1 amended witness: the three-event log with sample `[11]` — one
batch `[11, 12]`, bracketed, replaying the inclusive suffix from the
matched hash. -/
theorem C1_subscribe_replay_witness :
    inbox_subscribe ⟨[(0, 10), (1, 11), (2, 12)]⟩ [11]
      = Message.StartOfHistory ::
          (historyBatches ⟨[(0, 10), (1, 11), (2, 12)]⟩ [11]).map
            Message.Events
          ++ [Message.EndOfHistory] ∧
    (∀ b ∈ historyBatches ⟨[(0, 10), (1, 11), (2, 12)]⟩ [11],
      b.length ≤ 1000) ∧
    replayedEvents ⟨[(0, 10), (1, 11), (2, 12)]⟩ [11]
      = (amendedSuffix ⟨[(0, 10), (1, 11), (2, 12)]⟩ [11]).map (·.2) :=
  C1_subscribe_replay ⟨[(0, 10), (1, 11), (2, 12)]⟩ [11]
    (by decide)

end Ate
